import Mathlib

/-!
Verification of the cc-view-transcript transcript viewer.

The definitions below are a shallow embedding of `src/cc-view-transcript.js`:
JavaScript strings become `String`, JSON-ish optional fields become `Option`,
fallible filesystem calls become `Except`, and each embedded function keeps the
name and branch structure of its source. Theorems about the frozen claims
follow the definitions.
-/

namespace CCView

/-! ## String helpers modelling JavaScript string operations -/

/-- JS `s.substring(0, n)`: the first `n` characters of `s`. -/
def strTake (s : String) (n : Nat) : String := String.mk (s.data.take n)

/-- JS `hay.includes(needle)`: case-sensitive substring containment. -/
def strIncludes (hay needle : String) : Bool := decide (needle.data <:+: hay.data)

/-- JS `x || d` for an optional string field: a falsy value (absent or empty) falls back to `d`. -/
def jsOr (o : Option String) (d : String) : String :=
  match o with
  | some s => if s = "" then d else s
  | none => d

/-- JS truthiness of an optional string field. -/
def strTruthy (o : Option String) : Bool :=
  match o with
  | some s => decide (s ≠ "")
  | none => false

/-- JS `Array.prototype.join('')`: concatenation of all list elements. -/
def concatAll : List String → String
  | [] => ""
  | s :: rest => s ++ concatAll rest

/-- JS `s.replace(pat, '')` on char lists: remove the first occurrence of `pat`. -/
def removeFirstSeg (pat : List Char) : List Char → List Char
  | [] => []
  | c :: rest =>
    if pat.isPrefixOf (c :: rest) then (c :: rest).drop pat.length
    else c :: removeFirstSeg pat rest

/-- JS `s.replace(pat, '')`: remove the first occurrence of `pat` in `s`. -/
def strRemoveFirst (s pat : String) : String := String.mk (removeFirstSeg pat.data s.data)

/-- JS `s.endsWith(post)`. -/
def strEndsWith (s post : String) : Bool := post.data.isSuffixOf s.data

/-- JS `s.startsWith(p)`. -/
def strStartsWith (s p : String) : Bool := p.data.isPrefixOf s.data

/-- JS `s.includes(c)` for a single character. -/
def strContainsChar (s : String) (c : Char) : Bool := s.data.contains c

/-- JS `s.toLowerCase()` (ASCII, as the session ids at hand are ASCII). -/
def strToLower (s : String) : String := String.mk (s.data.map Char.toLower)

/-! ## Tool-result text extraction (MessageParser.extractToolResultText) -/

/-- One element of a tool_result `content` array, with exactly the fields the code reads
(`type`, `text`, `source?.type`). -/
structure SubPart where
  type : Option String
  text : Option String
  sourceType : Option String
deriving DecidableEq

/-- The JS shapes a tool_result `content` value can take: a string, an array of sub-parts,
or anything else (`null`, `undefined`, a number, an object). -/
inductive TRContent
  | str (s : String)
  | arr (parts : List SubPart)
  | nullV
  | undefV
  | numV (n : Int)
  | objV
deriving DecidableEq

/-- The record returned by `extractToolResultText`. -/
structure TRText where
  text : String
  hasMultipleBlocks : Bool
  hasNonTextBlocks : Bool
deriving DecidableEq

/-- The loop's first branch test: `contentBlock.type === 'text' && contentBlock.text`. -/
def isTextPart (p : SubPart) : Bool := decide (p.type = some "text") && strTruthy p.text

/-- Every sub-part outside the first branch sets `hasNonTextBlocks`. -/
def isNonTextPart (p : SubPart) : Bool := !isTextPart p

/-- The string the loop body appends for the sub-part at 0-based index `i`. -/
def subPartPiece (i : Nat) (p : SubPart) : String :=
  if isTextPart p then
    (if i > 0 then "\n--- Content Block " ++ toString (i + 1) ++ " ---\n" else "") ++ jsOr p.text ""
  else if p.type = some "image" then
    "\n[IMAGE BLOCK " ++ toString (i + 1) ++ ": " ++ jsOr p.sourceType "unknown type" ++ "]\n"
  else
    "\n[" ++ (jsOr p.type "UNKNOWN").toUpper ++ " BLOCK " ++ toString (i + 1) ++ "]\n"

/-- The indexed walk over the sub-parts, mirroring the `for` loop over `content`. -/
def trPieces (i : Nat) : List SubPart → List String
  | [] => []
  | p :: rest => subPartPiece i p :: trPieces (i + 1) rest

/-- MessageParser.extractToolResultText. -/
def extractToolResultText : TRContent → TRText
  | .str s => ⟨s, false, false⟩
  | .arr parts => ⟨concatAll (trPieces 0 parts), decide (parts.length > 1), parts.any isNonTextPart⟩
  | _ => ⟨"", false, false⟩

/-! ## Content extraction (MessageParser) -/

/-- One element of a user/assistant message `content` array, with the fields the code reads. -/
structure Part where
  type : Option String
  text : Option String
  thinking : Option String
  name : Option String
  id : Option String
  input : Option String
  toolUseId : Option String
  content : TRContent
  isError : Bool
deriving DecidableEq

/-- A message `content` value: a plain string or an array of parts. -/
inductive PContent
  | str (s : String)
  | parts (l : List Part)
deriving DecidableEq

/-- A decoded record as the parser and the metadata extractor see it. -/
structure PRecord where
  type : String
  sessionId : Option String
  timestamp : Option String
  cwd : Option String
  content : Option PContent
  toolUseResultIsError : Bool
deriving DecidableEq

/-- The normalized content blocks the extractor produces. -/
inductive CBlock
  | thinkingB (text : Option String)
  | assistantTextB (text : Option String)
  | toolCallB (name : Option String) (id : Option String) (input : Option String)
      (isSubAgentFlag : Bool)
  | humanB (text : Option String)
  | toolResultB (id : Option String) (text : String) (isError : Bool)
      (hasMultipleBlocks : Bool) (hasNonTextBlocks : Bool)
deriving DecidableEq

/-- MessageParser.isSubAgent: `toolName === 'Task' || toolName?.includes('agent')`. -/
def isSubAgent (toolName : Option String) : Bool :=
  match toolName with
  | some n => decide (n = "Task") || strIncludes n "agent"
  | none => false

/-- JS `message.message?.content || []` followed by `for...of`: a string iterates as
characters, none of which carries a `type` field, so only an array yields parts. -/
def partsOf : Option PContent → List Part
  | some (.parts l) => l
  | _ => []

/-- MessageParser.extractAssistantContent (the switch over sub-block types). -/
def extractAssistantContent (content : Option PContent) : List CBlock :=
  (partsOf content).flatMap fun b =>
    if b.type = some "thinking" then [.thinkingB b.thinking]
    else if b.type = some "text" then [.assistantTextB b.text]
    else if b.type = some "tool_use" then [.toolCallB b.name b.id b.input (isSubAgent b.name)]
    else []

/-- MessageParser.extractUserContent. -/
def extractUserContent (r : PRecord) : List CBlock :=
  match r.content with
  | some (.str s) => [.humanB (some s)]
  | some (.parts l) =>
    l.flatMap fun b =>
      if b.type = some "tool_result" then
        let isErr := r.toolUseResultIsError || b.isError
        let t := extractToolResultText b.content
        [.toolResultB b.toolUseId t.text isErr t.hasMultipleBlocks t.hasNonTextBlocks]
      else if b.type = some "text" then [.humanB b.text]
      else []
  | none => []

/-- Recognizer for ToolResult blocks (used to count them). -/
def isToolResultBlock : CBlock → Bool
  | .toolResultB _ _ _ _ _ => true
  | _ => false

/-! ## Line decoder (MessageParser.parseLine) -/

/-- The result of decoding one line: a parsed value, or a parse-error record. -/
inductive LineResult (α : Type)
  | parsed (v : α)
  | parseErrorR (lineNumber : Option Nat) (errMsg : String) (preview : String) (fullLine : String)
deriving DecidableEq

/-- MessageParser.parseLine, with `JSON.parse` abstracted as the function `jp`
(an external collaborator); the catch turns its failure into a parse-error record. -/
def parseLine {α : Type} (jp : String → Except String α) (line : String)
    (lineNumber : Option Nat) : LineResult α :=
  match jp line with
  | .ok v => .parsed v
  | .error e => .parseErrorR lineNumber e (strTake line 100) line

/-! ## Formatter truncation (MessageFormatter.truncateIfNeeded) -/

/-- MessageFormatter.truncateIfNeeded, taking the two option fields it reads. -/
def truncateIfNeeded (truncateTools : Bool) (maxToolLength : Nat) (text : String)
    (label : String) : List String :=
  if truncateTools = false ∨ text = "" then [text]
  else if text.length > maxToolLength then
    [strTake text maxToolLength ++ "...",
     "[Truncated " ++ label ++ " - " ++ toString text.length ++ " total characters]"]
  else [text]

/-! ## Metadata aggregator (MetadataExtractor.extract) -/

structure Metadata where
  sessionId : Option String
  timestamp : Option String
  projectPath : Option String
  messageCount : Nat
  toolCallCount : Nat
  hasSubAgents : Bool
deriving DecidableEq

def initMetadata : Metadata := ⟨none, none, none, 0, 0, false⟩

/-- The tool-call counting loop of MetadataExtractor.extract: count `tool_use` blocks
and set `hasSubAgents` through the shared MessageParser.isSubAgent predicate. -/
def toolUseFold (m : Metadata) (b : Part) : Metadata :=
  if b.type = some "tool_use" then
    {m with toolCallCount := m.toolCallCount + 1,
            hasSubAgents := m.hasSubAgents || isSubAgent b.name}
  else m

/-- One record's effect in MetadataExtractor.extract's line handler;
the `Bool` component is the `metadataExtracted` flag. -/
def metadataStep (st : Metadata × Bool) (r : PRecord) : Metadata × Bool :=
  if !(r.type = "user" || r.type = "assistant" || r.type = "system") then st
  else
    let md := {st.1 with messageCount := st.1.messageCount + 1}
    let md2 :=
      if !st.2 && strTruthy r.sessionId then
        ({md with sessionId := r.sessionId, timestamp := r.timestamp, projectPath := r.cwd}, true)
      else (md, st.2)
    if r.type = "assistant" then
      ((partsOf r.content).foldl toolUseFold md2.1, md2.2)
    else md2

/-- MetadataExtractor.extract over the decoded records of a file. -/
def metadataExtract (records : List PRecord) : Metadata :=
  (records.foldl metadataStep (initMetadata, false)).1

/-! ## Session resolver (SessionResolver) -/

/-- A JS error as the resolver observes it: a `code` (empty for a plain `Error`) and a message. -/
structure JsError where
  code : String
  message : String
deriving DecidableEq

structure StatInfo where
  isFile : Bool
  isDirectory : Bool
  mtimeMs : Nat
  size : Nat
deriving DecidableEq

structure DirEnt where
  name : String
  isDir : Bool
deriving DecidableEq

/-- The filesystem and path collaborators (external per the spec's scope section). -/
structure FS where
  stat : String → Except JsError StatInfo
  readdir : String → Except JsError (List DirEnt)
  readFirstSessionId : String → Option String
  resolvePath : String → String
  homedir : String

structure SessionInfo where
  path : String
  sessionId : String
  projectDir : String
  modified : Nat
  size : Nat
  isAgent : Bool
  parentSessionId : Option String
deriving DecidableEq

structure ResolverOptions where
  includeAgents : Bool
  latest : Bool
deriving DecidableEq

inductive ResolutionResult
  | file (path : String)
  | matchR (path : String) (session : SessionInfo)
  | candidates (sessions : List SessionInfo)
  | notFound (input : String)
  | resError (input : String) (errMsg : String)
deriving DecidableEq

/-- `path.join(os.homedir(), '.claude', 'projects')`. -/
def projectsDirOf (fs : FS) : String := fs.homedir ++ "/.claude/projects"

/-- SessionResolver.fileExists: `ENOENT` is `false`, any other stat failure propagates. -/
def fileExists (fs : FS) (p : String) : Except JsError Bool :=
  match fs.stat p with
  | .ok st => .ok st.isFile
  | .error e => if e.code = "ENOENT" then .ok false else .error e

/-- SessionResolver.isDirectory: `ENOENT` is `false`, any other stat failure propagates. -/
def isDirectoryFn (fs : FS) (p : String) : Except JsError Bool :=
  match fs.stat p with
  | .ok st => .ok st.isDirectory
  | .error e => if e.code = "ENOENT" then .ok false else .error e

/-- SessionResolver.encodeProjectPath: every non-alphanumeric character becomes a hyphen. -/
def encodeProjectPath (dirPath : String) : String :=
  String.mk (dirPath.data.map fun c => if c.isAlphanum then c else '-')

/-- SessionResolver.scanProjectDir; every I/O failure inside it is absorbed
(a warning is printed, the scan continues). -/
def scanProjectDir (fs : FS) (projPath projName : String) (includeAgents : Bool) :
    List SessionInfo :=
  match fs.readdir projPath with
  | .error _ => []
  | .ok entries =>
    entries.flatMap fun ent =>
      if !(strEndsWith ent.name ".jsonl") then []
      else
        let isAgent := strStartsWith ent.name "agent-"
        if isAgent && !includeAgents then []
        else
          let filePath := projPath ++ "/" ++ ent.name
          match fs.stat filePath with
          | .error _ => []
          | .ok st =>
            [{ path := filePath
               sessionId := strRemoveFirst ent.name ".jsonl"
               projectDir := projName
               modified := st.mtimeMs
               size := st.size
               isAgent := isAgent
               parentSessionId := if isAgent then fs.readFirstSessionId filePath else none }]

/-- The comparator `(a, b) => b.modified - a.modified`: newest first. -/
def newerEq (a b : SessionInfo) : Prop := b.modified ≤ a.modified

instance : DecidableRel newerEq := fun a b => Nat.decLe b.modified a.modified

instance : IsTotal SessionInfo newerEq := ⟨fun a b => Nat.le_total b.modified a.modified⟩

instance : IsTrans SessionInfo newerEq :=
  ⟨fun _ _ _ h1 h2 => Nat.le_trans h2 h1⟩

/-- `sessions.sort((a, b) => b.modified - a.modified)` (a stable sort, newest first). -/
def sortByNewest (l : List SessionInfo) : List SessionInfo := List.insertionSort newerEq l

/-- The loop of SessionResolver.scanSessions: scan each project subdirectory in order. -/
def discoveredSessions (fs : FS) (entries : List DirEnt) (includeAgents : Bool) :
    List SessionInfo :=
  (entries.filter (·.isDir)).flatMap fun d =>
    scanProjectDir fs (projectsDirOf fs ++ "/" ++ d.name) d.name includeAgents

/-- SessionResolver.scanSessions: any failure reading the projects root becomes a thrown
plain `Error` naming the projects directory; the result is sorted newest first. -/
def scanSessions (fs : FS) (includeAgents : Bool) : Except JsError (List SessionInfo) :=
  match fs.readdir (projectsDirOf fs) with
  | .error _ => .error ⟨"", "Cannot access projects directory: " ++ projectsDirOf fs⟩
  | .ok entries => .ok (sortByNewest (discoveredSessions fs entries includeAgents))

/-- The case-insensitive session-id match used by SessionResolver.findByPrefix. -/
def sessionMatches (pfx : String) (s : SessionInfo) : Bool :=
  strStartsWith (strToLower s.sessionId) (strToLower pfx)

/-- SessionResolver.findByPrefix: agent sessions are temporarily included when the
reference itself is agent-style; matching lowercases both sides. -/
def findByPfx (fs : FS) (opts : ResolverOptions) (pfx : String) :
    Except JsError (List SessionInfo) :=
  let ia := opts.includeAgents || strStartsWith (strToLower pfx) "agent-"
  match scanSessions fs ia with
  | .error e => .error e
  | .ok sessions => .ok (sessions.filter (sessionMatches pfx))

/-- SessionResolver.findByDirectory. -/
def findByDirectory (fs : FS) (opts : ResolverOptions) (dirPath : String) :
    Except JsError (List SessionInfo) :=
  let encoded := encodeProjectPath dirPath
  let projPath := projectsDirOf fs ++ "/" ++ encoded
  match isDirectoryFn fs projPath with
  | .error e => .error e
  | .ok false => .ok []
  | .ok true => .ok (sortByNewest (scanProjectDir fs projPath encoded opts.includeAgents))

/-- SessionResolver.handleCandidates. -/
def handleCandidates (latest : Bool) (input : String) : List SessionInfo → ResolutionResult
  | [] => .notFound input
  | s :: rest => if rest.isEmpty || latest then .matchR s.path s else .candidates (s :: rest)

/-- The body of SessionResolver.resolve (the code inside the try). -/
def resolveBody (fs : FS) (opts : ResolverOptions) (input : String) :
    Except JsError ResolutionResult :=
  if strEndsWith input ".jsonl" then
    match fileExists fs (fs.resolvePath input) with
    | .error e => .error e
    | .ok true => .ok (.file (fs.resolvePath input))
    | .ok false => .ok (.notFound input)
  else if strContainsChar input '/' || strContainsChar input '\\' then
    let resolved := fs.resolvePath input
    match fileExists fs resolved with
    | .error e => .error e
    | .ok true => .ok (.file resolved)
    | .ok false =>
      match isDirectoryFn fs resolved with
      | .error e => .error e
      | .ok true =>
        match findByDirectory fs opts resolved with
        | .error e => .error e
        | .ok sessions => .ok (handleCandidates opts.latest input sessions)
      | .ok false => .ok (.notFound input)
  else
    match isDirectoryFn fs (fs.resolvePath input) with
    | .error e => .error e
    | .ok true =>
      match findByDirectory fs opts (fs.resolvePath input) with
      | .error e => .error e
      | .ok sessions => .ok (handleCandidates opts.latest input sessions)
    | .ok false =>
      match findByPfx fs opts input with
      | .error e => .error e
      | .ok sessions => .ok (handleCandidates opts.latest input sessions)

/-- SessionResolver.resolve: the catch turns any thrown error into a resolution error. -/
def resolveFn (fs : FS) (opts : ResolverOptions) (input : String) : ResolutionResult :=
  match resolveBody fs opts input with
  | .ok r => r
  | .error e => .resError input e.message

/-! ## API exporter / chunk reassembler (ApiExporter.extract) -/

/-- A content block as the exporter handles it: the exporter never inspects blocks, except
that spreading a string content yields its characters. -/
inductive XBlock
  | textX (t : String)
  | charX (c : Char)
  | otherX (tag : Nat)
deriving DecidableEq

/-- A message `content` value on the export path. -/
inductive XContent
  | str (s : String)
  | arr (l : List XBlock)
deriving DecidableEq

structure XMsg where
  role : String
  content : XContent
deriving DecidableEq

/-- A decoded record as the exporter sees it. -/
structure XRec where
  type : String
  isSidechain : Bool
  sessionId : Option String
  requestId : Option String
  message : Option XMsg
deriving DecidableEq

/-- JS truthiness of a `content` value (an empty array is truthy, an empty string is not). -/
def contentTruthy : XContent → Bool
  | .str s => !s.isEmpty
  | .arr _ => true

/-- JS spread `[...content]`: an array spreads its elements, a string its characters. -/
def spreadContent : XContent → List XBlock
  | .str s => s.data.map .charX
  | .arr l => l

/-- The exporter's conversion of a content value to array form for merging. -/
def contentAsArray : XContent → List XBlock
  | .arr l => l
  | .str s => [.textX s]

/-- The exporter's accumulator: `pendingAssistant` is either absent or
`{requestId, content}`. Having a single optional slot is what makes "at most one
pending turn is open at a time" hold by construction. -/
abbrev XPend := Option (Option String × List XBlock)

/-- Flush the open accumulator (if any) onto the messages array as one completed
assistant message. -/
def flushCore : List XMsg × XPend → List XMsg × XPend
  | (msgs, some (_, blocks)) => (msgs ++ [⟨"assistant", .arr blocks⟩], none)
  | (msgs, none) => (msgs, none)

/-- The `messages`/`pendingAssistant` part of ApiExporter.extract's per-line handler.
The handler's sessionId capture and `hasSummaries` flag never read or write these two
variables, so the handler splits into this core plus the two updates below.
`.error ()` models the TypeError thrown on a user record without a `message`. -/
def exportCore (c : List XMsg × XPend) (r : XRec) : Except Unit (List XMsg × XPend) :=
  if r.type = "summary" then .ok c
  else if r.type = "system" then .ok c
  else if r.isSidechain then .ok c
  else if r.type = "user" then
    match r.message with
    | none => .error ()
    | some m =>
      let c1 := flushCore c
      match c1.1.getLast? with
      | some last =>
        if last.role = "user" then
          .ok (c1.1.dropLast ++
                [⟨last.role, .arr (contentAsArray last.content ++ contentAsArray m.content)⟩],
               c1.2)
        else .ok (c1.1 ++ [m], c1.2)
      | none => .ok (c1.1 ++ [m], c1.2)
  else if r.type = "assistant" then
    match r.message with
    | none => .ok c
    | some m =>
      if contentTruthy m.content then
        match c.2 with
        | some (rid, blocks) =>
          if rid = r.requestId then .ok (c.1, some (rid, blocks ++ spreadContent m.content))
          else .ok (c.1 ++ [⟨"assistant", .arr blocks⟩],
                    some (r.requestId, spreadContent m.content))
        | none => .ok (c.1, some (r.requestId, spreadContent m.content))
      else .ok c
  else .ok c

/-- The handler's sessionId capture: `if (!sessionId && parsed.sessionId)`. -/
def exportSession (sid : Option String) (r : XRec) : Option String :=
  if !strTruthy sid && strTruthy r.sessionId then r.sessionId else sid

/-- The handler's `hasSummaries` update. -/
def exportSummaryFlag (flag : Bool) (r : XRec) : Bool :=
  if r.type = "summary" then true else flag

structure ExportState where
  messages : List XMsg
  pending : XPend
  hasSummaries : Bool
  sessionId : Option String
deriving DecidableEq

def initExport : ExportState := ⟨[], none, false, none⟩

/-- ApiExporter.extract's per-line handler on an already-decoded record. -/
def exportStep (st : ExportState) (r : XRec) : Except Unit ExportState :=
  match exportCore (st.messages, st.pending) r with
  | .ok (m, p) => .ok ⟨m, p, exportSummaryFlag st.hasSummaries r, exportSession st.sessionId r⟩
  | .error e => .error e

/-- Run the handler over the remaining records and flush at end-of-stream
(the `close` listener), on the messages/accumulator core. -/
def runCore (c : List XMsg × XPend) : List XRec → Except Unit (List XMsg × XPend)
  | [] => .ok (flushCore c)
  | r :: rest =>
    match exportCore c r with
    | .ok c' => runCore c' rest
    | .error e => .error e

/-- Run the handler without the end-of-stream flush (stream prefixes). -/
def coreList (c : List XMsg × XPend) : List XRec → Except Unit (List XMsg × XPend)
  | [] => .ok c
  | r :: rest =>
    match exportCore c r with
    | .ok c' => coreList c' rest
    | .error e => .error e

/-- Run the full handler over the records and flush at end-of-stream. -/
def runExport (st : ExportState) : List XRec → Except Unit ExportState
  | [] =>
    .ok {st with messages := (flushCore (st.messages, st.pending)).1,
                 pending := (flushCore (st.messages, st.pending)).2}
  | r :: rest =>
    match exportStep st r with
    | .ok st' => runExport st' rest
    | .error e => .error e

/-- ApiExporter.extract over decoded records: the exported `messages` array,
or the thrown error. -/
def apiExportMessages (rs : List XRec) : Except Unit (List XMsg) :=
  (runExport initExport rs).map ExportState.messages

/-- The content blocks held by the open accumulator. -/
def pendBlocks : XPend → List XBlock
  | some (_, blocks) => blocks
  | none => []

/-- All blocks of the assistant-role messages of an output message array, in order. -/
def asstBlocksOfMsgs (msgs : List XMsg) : List XBlock :=
  msgs.flatMap fun m => if m.role = "assistant" then contentAsArray m.content else []

/-- The assistant content blocks a record contributes to the export
(primary-conversation assistant records with truthy content). -/
def blocksOfRec (r : XRec) : List XBlock :=
  if r.type = "assistant" && !r.isSidechain then
    match r.message with
    | some m => if contentTruthy m.content then spreadContent m.content else []
    | none => []
  else []

/-- The single assistant record equivalent to two merged same-request chunks. -/
def mergedRec (r1 : XRec) (m1 m2 : XMsg) : XRec :=
  {r1 with message := some ⟨m1.role, .arr (spreadContent m1.content ++ spreadContent m2.content)⟩}

/-! ## Concrete filesystem fixtures (for counterexamples and witnesses) -/

/-- A filesystem on which every stat and every directory read fails with ENOENT. -/
def enoentFS : FS where
  stat := fun _ => .error ⟨"ENOENT", "no such file or directory"⟩
  readdir := fun _ => .error ⟨"ENOENT", "no such file or directory"⟩
  readFirstSessionId := fun _ => none
  resolvePath := fun s => "/cwd/" ++ s
  homedir := "/home/u"

/-- A filesystem holding one project directory `proj` with two session files,
`aaa.jsonl` (modified 5) and `abb.jsonl` (modified 7). -/
def prefixFS : FS where
  stat := fun p =>
    if p = "/home/u/.claude/projects/proj" then .ok ⟨false, true, 0, 0⟩
    else if p = "/home/u/.claude/projects/proj/aaa.jsonl" then .ok ⟨true, false, 5, 10⟩
    else if p = "/home/u/.claude/projects/proj/abb.jsonl" then .ok ⟨true, false, 7, 20⟩
    else .error ⟨"ENOENT", "no such file or directory"⟩
  readdir := fun p =>
    if p = "/home/u/.claude/projects" then .ok [⟨"proj", true⟩]
    else if p = "/home/u/.claude/projects/proj" then
      .ok [⟨"aaa.jsonl", false⟩, ⟨"abb.jsonl", false⟩]
    else .error ⟨"ENOENT", "no such file or directory"⟩
  readFirstSessionId := fun _ => none
  resolvePath := fun s => "/cwd/" ++ s
  homedir := "/home/u"

/-! ## Helper lemmas -/

theorem data_append (a b : String) : (a ++ b).data = a.data ++ b.data := by
  rw [String.congr_append]

theorem infix_mid (a b c : String) : b.data <:+: (a ++ b ++ c).data := by
  refine ⟨a.data, c.data, ?_⟩
  rw [data_append, data_append]

theorem infix_concatAll_of_mem {s : String} {l : List String} (h : s ∈ l) :
    s.data <:+: (concatAll l).data := by
  induction l with
  | nil => cases h
  | cons a rest ih =>
    rw [List.mem_cons] at h
    show s.data <:+: (a ++ concatAll rest).data
    rw [data_append]
    rcases h with rfl | h
    · exact (List.prefix_append s.data (concatAll rest).data).isInfix
    · exact (ih h).trans (List.suffix_append a.data (concatAll rest).data).isInfix

theorem subPartPiece_mem_trPieces :
    ∀ (parts : List SubPart) (k i : Nat) (p : SubPart), parts[i]? = some p →
      subPartPiece (k + i) p ∈ trPieces k parts := by
  intro parts
  induction parts with
  | nil => intro k i p h; simp at h
  | cons q rest ih =>
    intro k i p h
    cases i with
    | zero =>
      simp at h
      subst h
      exact List.mem_cons_self _ _
    | succ j =>
      have h' : rest[j]? = some p := by simpa using h
      have e : k + (j + 1) = (k + 1) + j := by omega
      rw [e]
      exact List.mem_cons_of_mem _ (ih (k + 1) j p h')

theorem piece_infix_toolResult {parts : List SubPart} {i : Nat} {p : SubPart}
    (h : parts[i]? = some p) :
    (subPartPiece i p).data <:+: (extractToolResultText (.arr parts)).text.data := by
  have hm := subPartPiece_mem_trPieces parts 0 i p h
  rw [Nat.zero_add] at hm
  exact infix_concatAll_of_mem hm

/-! ## Claim theorems -/

/-- C1 counterexample: for the two-element tool_result content
`[{type:'text',text:'a'}, {type:'text',text:'b'}]` (two text sub-parts, so the claim
demands two distinct "Content Block N" markers), the extracted text is
`"a\n--- Content Block 2 ---\nb"`: sub-part 1 gets no marker at all — the code only
emits a separator when the loop index is positive — so the text does not contain a
"Content Block 1" marker and does not contain N = 2 part markers. -/
theorem c1_counterexample :
    extractToolResultText (.arr [⟨some "text", some "a", none⟩, ⟨some "text", some "b", none⟩]) =
      ⟨"a\n--- Content Block 2 ---\nb", true, false⟩ ∧
    strIncludes "a\n--- Content Block 2 ---\nb" "Content Block 1" = false := by
  constructor
  · rfl
  · decide

/-- C1 (amended): for a tool_result content array of N > 1 sub-parts,
`hasMultipleBlocks` is set; `hasNonTextBlocks` is set exactly when some sub-part is not
rendered as text (not `type:'text'` with nonempty text); every sub-part's rendered piece
appears in the extracted text, so no sub-part after the first is omitted; every text
sub-part's text appears verbatim; every text sub-part after the first is preceded by its
"Content Block i+1" marker; and every sub-part not rendered as text is replaced by a
bracketed type-and-index "... BLOCK i+1" marker appearing in the text. The first
sub-part, when it is a text sub-part, is appended with no marker. -/
theorem c1_multipart_toolresult (parts : List SubPart) (hN : 1 < parts.length) :
    (extractToolResultText (.arr parts)).hasMultipleBlocks = true ∧
    ((extractToolResultText (.arr parts)).hasNonTextBlocks = true ↔
      ∃ p ∈ parts, isTextPart p = false) ∧
    (∀ (i : Nat) (p : SubPart), parts[i]? = some p →
      (subPartPiece i p).data <:+: (extractToolResultText (.arr parts)).text.data) ∧
    (∀ (i : Nat) (p : SubPart), parts[i]? = some p → isTextPart p = true →
      (jsOr p.text "").data <:+: (extractToolResultText (.arr parts)).text.data) ∧
    (∀ (i : Nat) (p : SubPart), parts[i]? = some p → isTextPart p = true → 0 < i →
      ("Content Block " ++ toString (i + 1)).data <:+:
        (extractToolResultText (.arr parts)).text.data) ∧
    (∀ (i : Nat) (p : SubPart), parts[i]? = some p → isTextPart p = false →
      ("BLOCK " ++ toString (i + 1)).data <:+:
        (extractToolResultText (.arr parts)).text.data) := by
  refine ⟨?_, ?_, ?_, ?_, ?_, ?_⟩
  · simp [extractToolResultText]
    omega
  · simp [extractToolResultText, List.any_eq_true, isNonTextPart]
  · intro i p h
    exact piece_infix_toolResult h
  · intro i p h htext
    have hp : subPartPiece i p =
        (if i > 0 then "\n--- Content Block " ++ toString (i + 1) ++ " ---\n" else "") ++
          jsOr p.text "" := by
      simp [subPartPiece, htext]
    have hsuf : (jsOr p.text "").data <:+: (subPartPiece i p).data := by
      rw [hp, data_append]
      exact (List.suffix_append _ _).isInfix
    exact hsuf.trans (piece_infix_toolResult h)
  · intro i p h htext hi
    have he : ("\n--- Content Block " : String).data =
        ("\n--- " : String).data ++ ("Content Block " : String).data := by decide
    have hin : ("Content Block " ++ toString (i + 1)).data <:+: (subPartPiece i p).data := by
      refine ⟨("\n--- " : String).data, (" ---\n" ++ jsOr p.text "").data, ?_⟩
      simp [subPartPiece, htext, hi, data_append, he]
    exact hin.trans (piece_infix_toolResult h)
  · intro i p h htext
    have hin : ("BLOCK " ++ toString (i + 1)).data <:+: (subPartPiece i p).data := by
      by_cases himg : p.type = some "image"
      · have he : ("\n[IMAGE BLOCK " : String).data =
            ("\n[IMAGE " : String).data ++ ("BLOCK " : String).data := by decide
        refine ⟨("\n[IMAGE " : String).data,
          (": " ++ (jsOr p.sourceType "unknown type" ++ "]\n")).data, ?_⟩
        simp [subPartPiece, htext, himg, data_append, he]
      · have he : (" BLOCK " : String).data =
            (" " : String).data ++ ("BLOCK " : String).data := by decide
        refine ⟨("\n[" ++ ((jsOr p.type "UNKNOWN").toUpper ++ " ")).data,
          ("]\n" : String).data, ?_⟩
        simp [subPartPiece, htext, himg, data_append, he]
    exact hin.trans (piece_infix_toolResult h)

/-- C1 witness: the amended theorem applied to the concrete two-part content
`[{type:'text',text:'a'}, {type:'image',source:{type:'png'}}]`: it has more than one
sub-part, the flag is set, and the image sub-part's bracketed "BLOCK 2" marker appears
in the extracted text. -/
theorem c1_multipart_toolresult_witness :
    1 < ([⟨some "text", some "a", none⟩,
          ⟨some "image", none, some "png"⟩] : List SubPart).length ∧
    (extractToolResultText (.arr [⟨some "text", some "a", none⟩,
        ⟨some "image", none, some "png"⟩])).hasMultipleBlocks = true ∧
    ("BLOCK " ++ toString (1 + 1)).data <:+:
      (extractToolResultText (.arr [⟨some "text", some "a", none⟩,
        ⟨some "image", none, some "png"⟩])).text.data :=
  ⟨by decide,
   (c1_multipart_toolresult [⟨some "text", some "a", none⟩,
     ⟨some "image", none, some "png"⟩] (by decide)).1,
   (c1_multipart_toolresult [⟨some "text", some "a", none⟩,
     ⟨some "image", none, some "png"⟩] (by decide)).2.2.2.2.2 1
     ⟨some "image", none, some "png"⟩ (by decide) (by decide)⟩

/-- C5: the line decoder is total — for every line and line number it yields exactly one
result; when the abstracted `JSON.parse` fails, the result is a parse-error record
carrying the line number, the decode error description, a preview that is exactly the
first 100 characters of the line (a prefix of it, of length at most 100), and the full
raw line. -/
theorem c5_parseLine_never_throws {α : Type} (jp : String → Except String α)
    (line : String) (n : Option Nat) :
    (∃ v, jp line = .ok v ∧ parseLine jp line n = .parsed v) ∨
    (∃ e, jp line = .error e ∧
      parseLine jp line n = .parseErrorR n e (strTake line 100) line ∧
      (strTake line 100).data <+: line.data ∧
      (strTake line 100).length ≤ 100) := by
  cases h : jp line with
  | ok v =>
    left
    exact ⟨v, rfl, by simp [parseLine, h]⟩
  | error e =>
    right
    refine ⟨e, rfl, by simp [parseLine, h], ?_, ?_⟩
    · exact List.take_prefix 100 line.data
    · simp [strTake]

/-- C7: with truncation enabled and threshold 10, a 25-character text renders as its
first 10 characters plus an ellipsis, followed by a trailer line stating 25 as the
original character count; text of length at most 10 renders unchanged with no trailer. -/
theorem c7_truncation_boundary (text label : String) :
    (text.length = 25 →
      truncateIfNeeded true 10 text label =
        [strTake text 10 ++ "...",
         "[Truncated " ++ label ++ " - " ++ toString (25 : Nat) ++ " total characters]"]) ∧
    (text.length ≤ 10 → truncateIfNeeded true 10 text label = [text]) := by
  constructor
  · intro h25
    have hne : text ≠ "" := by
      intro he
      rw [he] at h25
      exact absurd h25 (by decide)
    have hgt : text.length > 10 := by omega
    simp [truncateIfNeeded, hne, hgt, h25]
  · intro hle
    by_cases he : text = ""
    · simp [truncateIfNeeded, he]
    · have hng : ¬(text.length > 10) := by omega
      simp [truncateIfNeeded, he, hng]

/-- C7 witness: the theorem applied to a concrete 25-character text and to a concrete
short text. -/
theorem c7_truncation_boundary_witness :
    ("abcdefghijklmnopqrstuvwxy" : String).length = 25 ∧
    truncateIfNeeded true 10 "abcdefghijklmnopqrstuvwxy" "tool result" =
      [strTake "abcdefghijklmnopqrstuvwxy" 10 ++ "...",
       "[Truncated " ++ "tool result" ++ " - " ++ toString (25 : Nat) ++
         " total characters]"] :=
  ⟨by decide, (c7_truncation_boundary "abcdefghijklmnopqrstuvwxy" "tool result").1 (by decide)⟩

/-- C9: tool-result text extraction is total on content that is neither a string nor an
array (null, undefined, a number, an object): it returns empty text with both flags
false; and the user-content extractor still produces exactly one ToolResult block per
tool_result part (shown by counting). -/
theorem c9_nonarray_toolresult_total (c : TRContent)
    (hs : ∀ s, c ≠ .str s) (ha : ∀ l, c ≠ .arr l)
    (r : PRecord) (l : List Part) (hr : r.content = some (.parts l)) :
    extractToolResultText c = ⟨"", false, false⟩ ∧
    (extractUserContent r).countP isToolResultBlock =
      l.countP fun b => decide (b.type = some "tool_result") := by
  constructor
  · cases c with
    | str s => exact absurd rfl (hs s)
    | arr l2 => exact absurd rfl (ha l2)
    | nullV => rfl
    | undefV => rfl
    | numV n => rfl
    | objV => rfl
  · obtain ⟨ty, sid, ts, cwd, content, terr⟩ := r
    simp only at hr
    subst hr
    induction l with
    | nil => rfl
    | cons b rest ih =>
      simp only [extractUserContent, List.flatMap_cons, List.countP_append] at ih ⊢
      rw [List.countP_cons]
      by_cases h1 : b.type = some "tool_result"
      · simp [h1, isToolResultBlock, ih, Nat.add_comm]
      · by_cases h2 : b.type = some "text"
        · simp [h1, h2, isToolResultBlock, ih]
        · simp [h1, h2, ih]

/-- C9 witness: the theorem applied to a null content and a concrete user record holding
one tool_result part whose content is null. -/
theorem c9_nonarray_toolresult_total_witness :
    extractToolResultText .nullV = ⟨"", false, false⟩ ∧
    (extractUserContent ⟨"user", none, none, none,
        some (.parts [⟨some "tool_result", none, none, none, none, none, some "t1",
          .nullV, false⟩]), false⟩).countP isToolResultBlock =
      ([⟨some "tool_result", none, none, none, none, none, some "t1",
          .nullV, false⟩] : List Part).countP fun b => decide (b.type = some "tool_result") :=
  c9_nonarray_toolresult_total .nullV (fun s h => by cases h) (fun l h => by cases h)
    _ _ rfl

theorem toolUseFold_hasSubAgents :
    ∀ (l : List Part) (m : Metadata),
      (l.foldl toolUseFold m).hasSubAgents =
        (m.hasSubAgents ||
          l.any fun b => decide (b.type = some "tool_use") && isSubAgent b.name) := by
  intro l
  induction l with
  | nil => intro m; simp
  | cons b rest ih =>
    intro m
    rw [List.foldl_cons, ih]
    by_cases hb : b.type = some "tool_use"
    · simp [toolUseFold, hb, Bool.or_assoc]
    · simp [toolUseFold, hb]

theorem metadataStep_hasSubAgents (st : Metadata × Bool) (r : PRecord) :
    (metadataStep st r).1.hasSubAgents =
      (st.1.hasSubAgents ||
        (decide (r.type = "assistant") &&
          (partsOf r.content).any fun b =>
            decide (b.type = some "tool_use") && isSubAgent b.name)) := by
  by_cases hA : r.type = "assistant"
  · simp [metadataStep, hA, toolUseFold_hasSubAgents]
    try split <;> simp
  · by_cases hU : r.type = "user"
    · simp [metadataStep, hU, hA]
      try split <;> simp
    · by_cases hS : r.type = "system"
      · simp [metadataStep, hS, hA, hU]
        try split <;> simp
      · simp [metadataStep, hA, hU, hS]

theorem metadataFold_hasSubAgents :
    ∀ (rs : List PRecord) (st : Metadata × Bool),
      ((rs.foldl metadataStep st).1).hasSubAgents =
        (st.1.hasSubAgents ||
          rs.any fun r => decide (r.type = "assistant") &&
            (partsOf r.content).any fun b =>
              decide (b.type = some "tool_use") && isSubAgent b.name) := by
  intro rs
  induction rs with
  | nil => intro st; simp
  | cons r rest ih =>
    intro st
    rw [List.foldl_cons, ih, metadataStep_hasSubAgents]
    simp [Bool.or_assoc]

/-- C8: sub-agent status is decided by the single predicate isSubAgent everywhere:
(1) for a present tool name it holds exactly when the name equals the reserved
delegation-tool name "Task" or contains the case-sensitive substring "agent";
(2) every ToolCall block produced by the assistant content extractor carries exactly
`isSubAgent name` as its flag; (3) the metadata aggregator's hasSubAgents is exactly
"some assistant record has a tool_use part whose name satisfies isSubAgent". -/
theorem c8_subagent_single_predicate :
    (∀ n : String, isSubAgent (some n) = true ↔ (n = "Task" ∨ "agent".data <:+: n.data)) ∧
    (∀ (content : Option PContent) (n i inp : Option String) (sa : Bool),
      CBlock.toolCallB n i inp sa ∈ extractAssistantContent content → sa = isSubAgent n) ∧
    (∀ records : List PRecord,
      (metadataExtract records).hasSubAgents =
        records.any fun r => decide (r.type = "assistant") &&
          (partsOf r.content).any fun b =>
            decide (b.type = some "tool_use") && isSubAgent b.name) := by
  refine ⟨?_, ?_, ?_⟩
  · intro n
    simp [isSubAgent, strIncludes]
  · intro content n i inp sa h
    simp only [extractAssistantContent, List.mem_flatMap] at h
    obtain ⟨b, _, hmem⟩ := h
    by_cases h1 : b.type = some "thinking"
    · simp [h1] at hmem
    · by_cases h2 : b.type = some "text"
      · simp [h1, h2] at hmem
      · by_cases h3 : b.type = some "tool_use"
        · simp [h1, h2, h3] at hmem
          obtain ⟨hn, _, _, hsa⟩ := hmem
          rw [hsa, hn]
        · simp [h1, h2, h3] at hmem
  · intro records
    have := metadataFold_hasSubAgents records (initMetadata, false)
    simpa [metadataExtract, initMetadata] using this

/-- C8 witness: the predicate-consistency theorem applied to a concrete assistant
content holding one `tool_use` part named "Task". -/
theorem c8_subagent_single_predicate_witness :
    CBlock.toolCallB (some "Task") (some "id1") none true ∈
      extractAssistantContent (some (.parts [⟨some "tool_use", none, none, some "Task",
        some "id1", none, none, .undefV, false⟩])) ∧
    true = isSubAgent (some "Task") :=
  ⟨by decide,
   c8_subagent_single_predicate.2.1
     (some (.parts [⟨some "tool_use", none, none, some "Task", some "id1", none, none,
       .undefV, false⟩])) (some "Task") (some "id1") none true (by decide)⟩

theorem runCore_cons (c : List XMsg × XPend) (r : XRec) (rest : List XRec) :
    runCore c (r :: rest) =
      (match exportCore c r with
       | .ok c' => runCore c' rest
       | .error e => .error e) := rfl

theorem coreList_cons (c : List XMsg × XPend) (r : XRec) (rest : List XRec) :
    coreList c (r :: rest) =
      (match exportCore c r with
       | .ok c' => coreList c' rest
       | .error e => .error e) := rfl

theorem runExport_eq_runCore :
    ∀ (rs : List XRec) (st : ExportState),
      (runExport st rs).map ExportState.messages =
        (runCore (st.messages, st.pending) rs).map Prod.fst := by
  intro rs
  induction rs with
  | nil => intro st; rfl
  | cons r rest ih =>
    intro st
    rw [runCore_cons]
    show (match exportStep st r with
          | .ok st' => runExport st' rest
          | .error e => .error e).map ExportState.messages = _
    cases h : exportCore (st.messages, st.pending) r with
    | ok c =>
      have hs : exportStep st r =
          .ok ⟨c.1, c.2, exportSummaryFlag st.hasSummaries r, exportSession st.sessionId r⟩ := by
        unfold exportStep
        rw [h]
      rw [hs]
      simpa using ih ⟨c.1, c.2, exportSummaryFlag st.hasSummaries r,
        exportSession st.sessionId r⟩
    | error e =>
      have hs : exportStep st r = .error e := by
        unfold exportStep
        rw [h]
      rw [hs]
      rfl

theorem runCore_append :
    ∀ (l1 l2 : List XRec) (c : List XMsg × XPend),
      runCore c (l1 ++ l2) =
        (match coreList c l1 with
         | .ok c' => runCore c' l2
         | .error e => .error e) := by
  intro l1
  induction l1 with
  | nil => intro l2 c; rfl
  | cons r rest ih =>
    intro l2 c
    show (match exportCore c r with
          | .ok c' => runCore c' (rest ++ l2)
          | .error e => .error e) = _
    rw [coreList_cons]
    cases h : exportCore c r with
    | ok c' => simp only [ih]
    | error e => rfl

theorem exportCore_assistant (c : List XMsg × XPend) (r : XRec) (m : XMsg)
    (ht : r.type = "assistant") (hs : r.isSidechain = false) (hm : r.message = some m)
    (hc : contentTruthy m.content = true) :
    exportCore c r = .ok
      (match c.2 with
       | some (rid, blocks) =>
         if rid = r.requestId then (c.1, some (rid, blocks ++ spreadContent m.content))
         else (c.1 ++ [⟨"assistant", .arr blocks⟩], some (r.requestId, spreadContent m.content))
       | none => (c.1, some (r.requestId, spreadContent m.content))) := by
  cases hc2 : c.2 with
  | none => simp [exportCore, ht, hs, hm, hc, hc2]
  | some pr =>
    obtain ⟨rid, blocks⟩ := pr
    by_cases hr : rid = r.requestId
    · simp [exportCore, ht, hs, hm, hc, hc2, hr]
    · simp [exportCore, ht, hs, hm, hc, hc2, hr]

theorem exportCore_two_assistant (c : List XMsg × XPend) (r1 r2 : XRec) (m1 m2 : XMsg)
    (h1t : r1.type = "assistant") (h1s : r1.isSidechain = false)
    (h1m : r1.message = some m1) (h1c : contentTruthy m1.content = true)
    (h2t : r2.type = "assistant") (h2s : r2.isSidechain = false)
    (h2m : r2.message = some m2) (h2c : contentTruthy m2.content = true)
    (hrid : r1.requestId = r2.requestId) :
    ∃ c1, exportCore c r1 = .ok c1 ∧
      exportCore c1 r2 = exportCore c (mergedRec r1 m1 m2) := by
  have hM := exportCore_assistant c (mergedRec r1 m1 m2)
    ⟨m1.role, .arr (spreadContent m1.content ++ spreadContent m2.content)⟩
    h1t h1s rfl rfl
  have h1 := exportCore_assistant c r1 m1 h1t h1s h1m h1c
  have hMrid : (mergedRec r1 m1 m2).requestId = r1.requestId := rfl
  rw [hMrid] at hM
  cases hc2 : c.2 with
  | none =>
    simp only [hc2] at h1 hM
    refine ⟨(c.1, some (r1.requestId, spreadContent m1.content)), h1, ?_⟩
    have h2 := exportCore_assistant (c.1, some (r1.requestId, spreadContent m1.content))
      r2 m2 h2t h2s h2m h2c
    rw [h2, hM]
    simp [hrid, spreadContent]
  | some pr =>
    obtain ⟨rid, blocks⟩ := pr
    simp only [hc2] at h1 hM
    by_cases hr : rid = r1.requestId
    · rw [if_pos hr] at h1
      rw [if_pos hr] at hM
      refine ⟨(c.1, some (rid, blocks ++ spreadContent m1.content)), h1, ?_⟩
      have h2 := exportCore_assistant (c.1, some (rid, blocks ++ spreadContent m1.content))
        r2 m2 h2t h2s h2m h2c
      rw [h2, hM]
      simp [hrid ▸ hr, spreadContent, List.append_assoc]
    · rw [if_neg hr] at h1
      rw [if_neg hr] at hM
      refine ⟨(c.1 ++ [⟨"assistant", .arr blocks⟩],
        some (r1.requestId, spreadContent m1.content)), h1, ?_⟩
      have h2 := exportCore_assistant (c.1 ++ [⟨"assistant", .arr blocks⟩],
        some (r1.requestId, spreadContent m1.content)) r2 m2 h2t h2s h2m h2c
      rw [h2, hM]
      simp [hrid, spreadContent]

/-- C2: two consecutive assistant records sharing a requestId are reassembled exactly as
one assistant record whose content is the concatenation of both records' content blocks
in arrival order — the exported messages array is the same for the split stream and for
the merged stream, whatever comes before and after. In particular the two records yield
exactly one assistant message carrying both records' blocks. -/
theorem c2_same_requestId_one_message (pre suf : List XRec) (r1 r2 : XRec) (m1 m2 : XMsg)
    (h1t : r1.type = "assistant") (h1s : r1.isSidechain = false)
    (h1m : r1.message = some m1) (h1c : contentTruthy m1.content = true)
    (h2t : r2.type = "assistant") (h2s : r2.isSidechain = false)
    (h2m : r2.message = some m2) (h2c : contentTruthy m2.content = true)
    (hrid : r1.requestId = r2.requestId) :
    apiExportMessages (pre ++ r1 :: r2 :: suf) =
      apiExportMessages (pre ++ mergedRec r1 m1 m2 :: suf) := by
  unfold apiExportMessages
  rw [runExport_eq_runCore, runExport_eq_runCore]
  simp only [initExport]
  rw [runCore_append, runCore_append]
  cases hp : coreList ([], none) pre with
  | error e => rfl
  | ok c =>
    obtain ⟨c1, hs1, hs2⟩ := exportCore_two_assistant c r1 r2 m1 m2
      h1t h1s h1m h1c h2t h2s h2m h2c hrid
    show (runCore c (r1 :: r2 :: suf)).map Prod.fst =
      (runCore c (mergedRec r1 m1 m2 :: suf)).map Prod.fst
    have e1 : runCore c (r1 :: r2 :: suf) = runCore c1 (r2 :: suf) := by
      rw [runCore_cons, hs1]
    have e2 : runCore c1 (r2 :: suf) = runCore c (mergedRec r1 m1 m2 :: suf) := by
      rw [runCore_cons, hs2, ← runCore_cons]
    rw [e1, e2]

/-- C2 witness: the theorem applied to two concrete consecutive assistant chunks with
requestId "rq" and an empty surrounding stream. -/
theorem c2_same_requestId_one_message_witness :
    apiExportMessages
        [⟨"assistant", false, none, some "rq", some ⟨"assistant", .arr [.textX "x"]⟩⟩,
         ⟨"assistant", false, none, some "rq", some ⟨"assistant", .arr [.textX "y"]⟩⟩] =
      apiExportMessages
        [⟨"assistant", false, none, some "rq",
          some ⟨"assistant", .arr (spreadContent (.arr [.textX "x"]) ++
            spreadContent (.arr [.textX "y"]))⟩⟩] :=
  c2_same_requestId_one_message [] []
    ⟨"assistant", false, none, some "rq", some ⟨"assistant", .arr [.textX "x"]⟩⟩
    ⟨"assistant", false, none, some "rq", some ⟨"assistant", .arr [.textX "y"]⟩⟩
    ⟨"assistant", .arr [.textX "x"]⟩ ⟨"assistant", .arr [.textX "y"]⟩
    rfl rfl rfl rfl rfl rfl rfl rfl rfl

theorem flushCore_asst (c : List XMsg × XPend) :
    asstBlocksOfMsgs (flushCore c).1 = asstBlocksOfMsgs c.1 ++ pendBlocks c.2 ∧
    (flushCore c).2 = none := by
  obtain ⟨msgs, pend⟩ := c
  cases pend with
  | none => simp [flushCore, pendBlocks]
  | some pr =>
    obtain ⟨rid, blocks⟩ := pr
    simp [flushCore, pendBlocks, asstBlocksOfMsgs, contentAsArray]

theorem asstBlocks_append (l1 l2 : List XMsg) :
    asstBlocksOfMsgs (l1 ++ l2) = asstBlocksOfMsgs l1 ++ asstBlocksOfMsgs l2 := by
  simp [asstBlocksOfMsgs]

theorem asstBlocks_single_user (m : XMsg) (hm : m.role = "user") :
    asstBlocksOfMsgs [m] = [] := by
  simp [asstBlocksOfMsgs, hm]

theorem asstBlocks_single_asst (content : XContent) :
    asstBlocksOfMsgs [⟨"assistant", content⟩] = contentAsArray content := by
  simp [asstBlocksOfMsgs]

theorem exportCore_asst_conservation (c : List XMsg × XPend) (r : XRec)
    (hwf : r.type = "user" → ∀ m, r.message = some m → m.role = "user") :
    ∀ c', exportCore c r = .ok c' →
      asstBlocksOfMsgs c'.1 ++ pendBlocks c'.2 =
        asstBlocksOfMsgs c.1 ++ pendBlocks c.2 ++ blocksOfRec r := by
  intro c' h
  by_cases h1 : r.type = "summary"
  · simp [exportCore, h1] at h
    simp [← h, blocksOfRec, h1]
  · by_cases h2 : r.type = "system"
    · simp [exportCore, h1, h2] at h
      simp [← h, blocksOfRec, h2]
    · by_cases h3 : r.isSidechain = true
      · simp [exportCore, h1, h2, h3] at h
        simp [← h, blocksOfRec, h3]
      · rw [Bool.not_eq_true] at h3
        by_cases h4 : r.type = "user"
        · cases hm : r.message with
          | none => simp [exportCore, h1, h2, h3, h4, hm] at h
          | some m =>
            have hrole : m.role = "user" := hwf h4 m hm
            have hfl := flushCore_asst c
            simp [exportCore, h1, h2, h3, h4, hm] at h
            cases hg : (flushCore c).1.getLast? with
            | none =>
              rw [hg] at h
              simp at h
              have hA : c'.1 = (flushCore c).1 ++ [m] := by rw [← h]
              have hB : c'.2 = (flushCore c).2 := by rw [← h]
              rw [hA, hB, asstBlocks_append, asstBlocks_single_user m hrole, hfl.2, hfl.1]
              simp [pendBlocks, blocksOfRec, h4]
            | some last =>
              rw [hg] at h
              by_cases hl : last.role = "user"
              · simp [hl] at h
                have hA : c'.1 = (flushCore c).1.dropLast ++
                    [⟨"user", .arr (contentAsArray last.content ++ contentAsArray m.content)⟩] := by
                  rw [← h]
                have hB : c'.2 = (flushCore c).2 := by rw [← h]
                have hsplit : (flushCore c).1.dropLast ++ [last] = (flushCore c).1 :=
                  List.dropLast_append_getLast? last (Option.mem_def.mpr hg)
                have e2 : asstBlocksOfMsgs (flushCore c).1 =
                    asstBlocksOfMsgs ((flushCore c).1.dropLast) := by
                  conv_lhs => rw [← hsplit]
                  rw [asstBlocks_append, asstBlocks_single_user last hl, List.append_nil]
                rw [hA, hB, asstBlocks_append, asstBlocks_single_user _ rfl, hfl.2, ← e2,
                  hfl.1]
                simp [pendBlocks, blocksOfRec, h4]
              · simp [hl] at h
                have hA : c'.1 = (flushCore c).1 ++ [m] := by rw [← h]
                have hB : c'.2 = (flushCore c).2 := by rw [← h]
                rw [hA, hB, asstBlocks_append, asstBlocks_single_user m hrole, hfl.2, hfl.1]
                simp [pendBlocks, blocksOfRec, h4]
        · by_cases h5 : r.type = "assistant"
          · cases hm : r.message with
            | none =>
              simp [exportCore, h1, h2, h3, h4, h5, hm] at h
              simp [← h, blocksOfRec, h5, h3, hm]
            | some m =>
              by_cases hc : contentTruthy m.content = true
              · cases hc2 : c.2 with
                | none =>
                  have he := exportCore_assistant c r m h5 h3 hm hc
                  simp only [hc2] at he
                  rw [he] at h
                  simp at h
                  have hA : c'.1 = c.1 := by rw [← h]
                  have hB : c'.2 = some (r.requestId, spreadContent m.content) := by
                    rw [← h]
                  rw [hA, hB]
                  simp [pendBlocks, hc2, blocksOfRec, h5, h3, hm, hc]
                | some pr =>
                  obtain ⟨rid, blocks⟩ := pr
                  have he := exportCore_assistant c r m h5 h3 hm hc
                  simp only [hc2] at he
                  by_cases hr : rid = r.requestId
                  · rw [if_pos hr] at he
                    rw [he] at h
                    simp at h
                    have hA : c'.1 = c.1 := by rw [← h]
                    have hB : c'.2 = some (rid, blocks ++ spreadContent m.content) := by
                      rw [← h]
                    rw [hA, hB]
                    simp [pendBlocks, hc2, blocksOfRec, h5, h3, hm, hc, List.append_assoc]
                  · rw [if_neg hr] at he
                    rw [he] at h
                    simp at h
                    have hA : c'.1 = c.1 ++ [⟨"assistant", .arr blocks⟩] := by rw [← h]
                    have hB : c'.2 = some (r.requestId, spreadContent m.content) := by
                      rw [← h]
                    rw [hA, hB, asstBlocks_append, asstBlocks_single_asst]
                    simp [pendBlocks, hc2, blocksOfRec, h5, h3, hm, hc, contentAsArray,
                      List.append_assoc]
              · rw [Bool.not_eq_true] at hc
                simp [exportCore, h1, h2, h3, h4, h5, hm, hc] at h
                simp [← h, blocksOfRec, h5, h3, hm, hc]
          · simp [exportCore, h1, h2, h3, h4, h5] at h
            simp [← h, blocksOfRec, h5]

theorem runCore_conservation :
    ∀ (rs : List XRec) (c : List XMsg × XPend),
      (∀ r ∈ rs, r.type = "user" → ∀ m, r.message = some m → m.role = "user") →
      ∀ out, runCore c rs = .ok out →
        asstBlocksOfMsgs out.1 =
          asstBlocksOfMsgs c.1 ++ pendBlocks c.2 ++ rs.flatMap blocksOfRec := by
  intro rs
  induction rs with
  | nil =>
    intro c _ out h
    simp [runCore] at h
    rw [← h]
    simp [(flushCore_asst c).1]
  | cons r rest ih =>
    intro c hwf out h
    rw [runCore_cons] at h
    cases hstep : exportCore c r with
    | error e => rw [hstep] at h; cases h
    | ok c1 =>
      rw [hstep] at h
      have hcons := exportCore_asst_conservation c r
        (hwf r (List.mem_cons_self _ _)) c1 hstep
      have hrest := ih c1 (fun r' hr' => hwf r' (List.mem_cons_of_mem _ hr')) out h
      rw [hrest, hcons]
      simp [List.flatMap_cons, List.append_assoc]

/-- C3: conservation of accumulated assistant content. For every successfully exported
stream, the assistant-message blocks of the output are exactly the concatenation of the
blocks of the primary-conversation assistant records of the input, in order: every
opened accumulator is flushed into the output exactly once (no duplication, since this
is an equality) and no accumulated content is ever lost, even when the stream ends with
an open accumulator (the end-of-stream flush). At most one accumulator is open at a
time by construction: the state holds a single optional `pending` slot. -/
theorem c3_pending_flushed_exactly_once (rs : List XRec) (out : List XMsg)
    (hwf : ∀ r ∈ rs, r.type = "user" → ∀ m, r.message = some m → m.role = "user")
    (h : apiExportMessages rs = .ok out) :
    asstBlocksOfMsgs out = rs.flatMap blocksOfRec := by
  unfold apiExportMessages at h
  rw [runExport_eq_runCore] at h
  simp only [initExport] at h
  cases hr : runCore (([] : List XMsg), (none : XPend)) rs with
  | error e => rw [hr] at h; cases h
  | ok c =>
    rw [hr] at h
    simp [Except.map] at h
    have := runCore_conservation rs ([], none) hwf c hr
    rw [← h]
    simpa [asstBlocksOfMsgs, pendBlocks] using this

/-- C3 witness: a stream that ends with an open accumulator (a single assistant chunk,
never followed by anything) still has its content flushed into the output. -/
theorem c3_pending_flushed_exactly_once_witness :
    apiExportMessages
        [⟨"assistant", false, none, some "rq", some ⟨"assistant", .arr [.textX "x"]⟩⟩] =
      .ok [⟨"assistant", .arr [.textX "x"]⟩] ∧
    asstBlocksOfMsgs [⟨"assistant", .arr [.textX "x"]⟩] =
      [(⟨"assistant", false, none, some "rq",
        some ⟨"assistant", .arr [.textX "x"]⟩⟩ : XRec)].flatMap blocksOfRec :=
  ⟨by rfl,
   c3_pending_flushed_exactly_once _ _
     (by
       intro r hr ht m hm
       simp at hr
       subst hr
       simp at ht)
     (by rfl)⟩

/-- C10: when a user record merges into an immediately preceding user message, a plain
string content of that message is first converted to a one-element array holding a text
block, so the merged message's content is array-shaped and contains all blocks of both
records in order. -/
theorem c10_user_merge_array_shape (msgs : List XMsg) (last m : XMsg) (r : XRec)
    (hl : last.role = "user") (ht : r.type = "user") (hs : r.isSidechain = false)
    (hm : r.message = some m) :
    exportCore (msgs ++ [last], none) r =
      .ok (msgs ++ [⟨"user", .arr (contentAsArray last.content ++ contentAsArray m.content)⟩],
           none) ∧
    (∀ s : String, contentAsArray (XContent.str s) = [XBlock.textX s]) := by
  constructor
  · simp [exportCore, ht, hs, hm, flushCore, List.getLast?_concat, hl, List.dropLast_concat]
  · intro s
    rfl

/-- C10 witness: merging a user record into a preceding user message whose content is
the plain string "hi" yields one user message with array content `[text "hi", text "yo"]`. -/
theorem c10_user_merge_array_shape_witness :
    exportCore ([⟨"user", .str "hi"⟩], none)
        ⟨"user", false, none, none, some ⟨"user", .arr [.textX "yo"]⟩⟩ =
      .ok ([⟨"user", .arr (contentAsArray (.str "hi") ++
        contentAsArray (.arr [.textX "yo"]))⟩], none) ∧
    contentAsArray (XContent.str "hi") = [XBlock.textX "hi"] := by
  have h := c10_user_merge_array_shape [] ⟨"user", .str "hi"⟩ ⟨"user", .arr [.textX "yo"]⟩
    ⟨"user", false, none, none, some ⟨"user", .arr [.textX "yo"]⟩⟩ rfl rfl rfl rfl
  exact ⟨h.1, h.2 "hi"⟩

/-- C4: resolving a session-ID prefix reference (not a .jsonl path, no path separator,
not an existing directory). With `matches` the discovered sessions whose id starts with
the reference case-insensitively (under the agent-inclusion rule in force for this
lookup): no match resolves to NotFound; a unique match resolves to SingleMatch with that
session; several matches without auto-pick resolve to Candidates holding exactly the
matches sorted by modification time newest first; auto-pick with at least one match
resolves to SingleMatch with a most recently modified match. -/
theorem c4_prefix_resolution (fs : FS) (opts : ResolverOptions) (input : String)
    (entries : List DirEnt) (ia : Bool) (mtchs : List SessionInfo)
    (hjs : strEndsWith input ".jsonl" = false)
    (hsep : (strContainsChar input '/' || strContainsChar input '\\') = false)
    (hdir : isDirectoryFn fs (fs.resolvePath input) = .ok false)
    (hrd : fs.readdir (projectsDirOf fs) = .ok entries)
    (hia : ia = (opts.includeAgents || strStartsWith (strToLower input) "agent-"))
    (hmatches : mtchs = (discoveredSessions fs entries ia).filter (sessionMatches input)) :
    (mtchs = [] → resolveFn fs opts input = .notFound input) ∧
    (∀ s, mtchs = [s] → resolveFn fs opts input = .matchR s.path s) ∧
    (1 < mtchs.length → opts.latest = false →
      ∃ cands, resolveFn fs opts input = .candidates cands ∧
        cands.Perm mtchs ∧ List.Sorted newerEq cands) ∧
    (opts.latest = true → mtchs ≠ [] →
      ∃ s, resolveFn fs opts input = .matchR s.path s ∧ s ∈ mtchs ∧
        ∀ t ∈ mtchs, t.modified ≤ s.modified) := by
  have hres : resolveFn fs opts input =
      handleCandidates opts.latest input
        ((sortByNewest (discoveredSessions fs entries ia)).filter (sessionMatches input)) := by
    simp [resolveFn, resolveBody, hjs, hsep, hdir, findByPfx, scanSessions, hrd, ← hia]
  have hperm : ((sortByNewest (discoveredSessions fs entries ia)).filter
      (sessionMatches input)).Perm mtchs := by
    rw [hmatches]
    exact (List.perm_insertionSort newerEq _).filter _
  have hsort : List.Sorted newerEq ((sortByNewest (discoveredSessions fs entries ia)).filter
      (sessionMatches input)) :=
    List.Pairwise.sublist (List.filter_sublist _)
      (List.sorted_insertionSort newerEq (discoveredSessions fs entries ia))
  refine ⟨?_, ?_, ?_, ?_⟩
  · intro hnil
    rw [hnil] at hperm
    rw [hres, hperm.eq_nil]
    rfl
  · intro s hone
    rw [hone] at hperm
    rw [hres, List.perm_singleton.mp hperm]
    rfl
  · intro hlen hlatest
    refine ⟨(sortByNewest (discoveredSessions fs entries ia)).filter (sessionMatches input),
      ?_, hperm, hsort⟩
    rw [hres]
    have hlen2 : 1 < ((sortByNewest (discoveredSessions fs entries ia)).filter
        (sessionMatches input)).length := by
      rw [hperm.length_eq]
      exact hlen
    cases hL : (sortByNewest (discoveredSessions fs entries ia)).filter
        (sessionMatches input) with
    | nil => rw [hL] at hlen2; simp at hlen2
    | cons s rest =>
      rw [hL] at hlen2
      have hrest : rest ≠ [] := by
        intro hnil
        rw [hnil] at hlen2
        simp at hlen2
      simp [handleCandidates, hlatest, List.isEmpty_iff, hrest]
  · intro hlatest hne
    have hLne : (sortByNewest (discoveredSessions fs entries ia)).filter
        (sessionMatches input) ≠ [] := by
      intro hnil
      rw [hnil] at hperm
      exact hne (List.Perm.eq_nil hperm.symm)
    cases hL : (sortByNewest (discoveredSessions fs entries ia)).filter
        (sessionMatches input) with
    | nil => exact absurd hL hLne
    | cons s rest =>
      refine ⟨s, ?_, ?_, ?_⟩
      · rw [hres, hL]
        simp [handleCandidates, hlatest]
      · rw [hL] at hperm
        exact hperm.mem_iff.mp (List.mem_cons_self _ _)
      · intro t ht
        rw [hL] at hperm hsort
        have ht2 : t ∈ s :: rest := hperm.mem_iff.mpr ht
        rcases List.mem_cons.mp ht2 with rfl | ht3
        · exact Nat.le_refl _
        · exact List.rel_of_sorted_cons hsort t ht3

/-- C4 witness: on the fixture filesystem, the prefix "a" matches the two sessions
`aaa` (modified 5) and `abb` (modified 7); with auto-pick off the result is the
Candidates list holding exactly those matches, newest first. -/
theorem c4_prefix_resolution_witness :
    resolveFn prefixFS ⟨true, false⟩ "a" = .candidates
      [⟨"/home/u/.claude/projects/proj/abb.jsonl", "abb", "proj", 7, 20, false, none⟩,
       ⟨"/home/u/.claude/projects/proj/aaa.jsonl", "aaa", "proj", 5, 10, false, none⟩] ∧
    ([⟨"/home/u/.claude/projects/proj/abb.jsonl", "abb", "proj", 7, 20, false, none⟩,
      ⟨"/home/u/.claude/projects/proj/aaa.jsonl", "aaa", "proj", 5, 10, false, none⟩] :
        List SessionInfo).Perm
      ((discoveredSessions prefixFS [⟨"proj", true⟩] true).filter (sessionMatches "a")) ∧
    List.Sorted newerEq
      [⟨"/home/u/.claude/projects/proj/abb.jsonl", "abb", "proj", 7, 20, false, none⟩,
       ⟨"/home/u/.claude/projects/proj/aaa.jsonl", "aaa", "proj", 5, 10, false, none⟩] := by
  obtain ⟨cands, h1, h2, h3⟩ :=
    (c4_prefix_resolution prefixFS ⟨true, false⟩ "a" [⟨"proj", true⟩] true
      ((discoveredSessions prefixFS [⟨"proj", true⟩] true).filter (sessionMatches "a"))
      rfl rfl rfl rfl rfl rfl).2.2.1 (by decide) rfl
  have h0 : resolveFn prefixFS ⟨true, false⟩ "a" = .candidates
      [⟨"/home/u/.claude/projects/proj/abb.jsonl", "abb", "proj", 7, 20, false, none⟩,
       ⟨"/home/u/.claude/projects/proj/aaa.jsonl", "aaa", "proj", 5, 10, false, none⟩] := by
    decide
  rw [h0] at h1
  simp only [ResolutionResult.candidates.injEq] at h1
  rw [← h1] at h2 h3
  exact ⟨h0, h2, h3⟩

/-- C6 counterexample: when the projects root does not exist (ENOENT everywhere), the
prefix lookup for "abc" throws inside scanSessions and resolve returns a ResolutionError
— yet the claim says a "does not exist" failure must yield NotFound (or an empty
candidate set) and never a ResolutionError. -/
theorem c6_counterexample :
    resolveFn enoentFS ⟨true, false⟩ "abc" =
      .resError "abc" "Cannot access projects directory: /home/u/.claude/projects" := by
  rfl

/-- C6 (amended): a stat failure with code ENOENT is normal control flow (`false`),
and any other stat failure propagates and surfaces as a ResolutionError (shown on the
direct .jsonl branch, where ENOENT yields NotFound); however, a failure of any kind —
ENOENT included — while listing the projects root surfaces as a ResolutionError naming
the projects directory, and a failure inside a single project scan is absorbed (the scan
yields no sessions and resolution continues, a warning being printed). -/
theorem c6_fs_error_surfacing (fs : FS) (opts : ResolverOptions) :
    (∀ p e, fs.stat p = .error e → e.code = "ENOENT" →
      fileExists fs p = .ok false ∧ isDirectoryFn fs p = .ok false) ∧
    (∀ p e, fs.stat p = .error e → e.code ≠ "ENOENT" →
      fileExists fs p = .error e ∧ isDirectoryFn fs p = .error e) ∧
    (∀ input e, strEndsWith input ".jsonl" = true →
      fs.stat (fs.resolvePath input) = .error e → e.code ≠ "ENOENT" →
      resolveFn fs opts input = .resError input e.message) ∧
    (∀ input e, strEndsWith input ".jsonl" = true →
      fs.stat (fs.resolvePath input) = .error e → e.code = "ENOENT" →
      resolveFn fs opts input = .notFound input) ∧
    (∀ input e, strEndsWith input ".jsonl" = false →
      (strContainsChar input '/' || strContainsChar input '\\') = false →
      isDirectoryFn fs (fs.resolvePath input) = .ok false →
      fs.readdir (projectsDirOf fs) = .error e →
      resolveFn fs opts input =
        .resError input ("Cannot access projects directory: " ++ projectsDirOf fs)) ∧
    (∀ p n ia e, fs.readdir p = .error e → scanProjectDir fs p n ia = []) := by
  refine ⟨?_, ?_, ?_, ?_, ?_, ?_⟩
  · intro p e hstat hcode
    constructor <;> simp [fileExists, isDirectoryFn, hstat, hcode]
  · intro p e hstat hcode
    constructor <;> simp [fileExists, isDirectoryFn, hstat, hcode]
  · intro input e hjs hstat hcode
    simp [resolveFn, resolveBody, hjs, fileExists, hstat, hcode]
  · intro input e hjs hstat hcode
    simp [resolveFn, resolveBody, hjs, fileExists, hstat, hcode]
  · intro input e hjs hsep hdir hrd
    simp [resolveFn, resolveBody, hjs, hsep, hdir, findByPfx, scanSessions, hrd]
  · intro p n ia e hrd
    simp [scanProjectDir, hrd]

/-- C6 witness: the amended theorem applied on the ENOENT-everywhere fixture — a
missing file is `false`/NotFound, and a missing projects root surfaces as a
ResolutionError. -/
theorem c6_fs_error_surfacing_witness :
    (fileExists enoentFS "/x" = .ok false ∧ isDirectoryFn enoentFS "/x" = .ok false) ∧
    resolveFn enoentFS ⟨true, false⟩ "zzz" =
      .resError "zzz" ("Cannot access projects directory: " ++ projectsDirOf enoentFS) :=
  ⟨(c6_fs_error_surfacing enoentFS ⟨true, false⟩).1 "/x"
     ⟨"ENOENT", "no such file or directory"⟩ rfl rfl,
   (c6_fs_error_surfacing enoentFS ⟨true, false⟩).2.2.2.2.1 "zzz"
     ⟨"ENOENT", "no such file or directory"⟩ rfl rfl rfl rfl⟩

end CCView
